import Mathlib

set_option maxHeartbeats 1000000

/-!
Shallow embedding of the Arduino CommandLine library
(src/CommandLine.h and src/CommandLine.cpp).

C strings are modelled as `List Char` holding the characters before the
terminating NUL byte; incoming serial bytes are modelled as `Nat` values.
Handler function pointers become Lean functions, the application command
table `g_sCmdTable` becomes a list of entries (its NUL-name sentinel entry
is the end of the list), and serial output (character echo, error text) is
dropped because it never feeds back into the interpreter state.
-/

/-- CommandLine.h line 21: `#define CHAR_BS 0x08`. -/
def CHAR_BS : Char := Char.ofNat 8

/-- CommandLine.h line 89: `#define CMD_BUF_SIZE 80`. -/
def CMD_BUF_SIZE : Nat := 80

/-- CommandLine.h line 27: `#define CMDLINE_MAX_ARGS 10`. -/
def CMDLINE_MAX_ARGS : Nat := 10

/-- CommandLine.h line 92: `#define CMDLINE_BAD_CMD (-1)`. -/
def CMDLINE_BAD_CMD : Int := -1

/-- CommandLine.h line 95: `#define CMDLINE_TOO_MANY_ARGS (-2)`. -/
def CMDLINE_TOO_MANY_ARGS : Int := -2

/-- CommandLine.h line 98: `#define CMDLINE_TOO_FEW_ARGS (-3)`. -/
def CMDLINE_TOO_FEW_ARGS : Int := -3

/-- CommandLine.h line 101: `#define CMDLINE_INVALID_ARG (-4)`. -/
def CMDLINE_INVALID_ARG : Int := -4

/-- CommandLine.h line 45: `#define BADPARAM (-1)`. -/
def BADPARAM : Int := -1

/-- CommandLine.h line 46: `#define DECVAL 1`. -/
def DECVAL : Int := 1

/-- CommandLine.h line 47: `#define HEXVAL 2`. -/
def HEXVAL : Int := 2

/-- CommandLine.h line 48: `#define STRVAL 3`. -/
def STRVAL : Int := 3

/-- The NUL character, the C string terminator. -/
def NUL : Char := Char.ofNat 0

/-- Serial bytes are masked with `& 0x7f` when read (CommandLine.cpp
line 134: `ch = (serial.read() & 0x7f)`). -/
def maskChar (b : Nat) : Char := Char.ofNat (b % 128)

/-- ASCII `tolower` on a character code, as used by `strcasecmp` and by the
`tolower` call in `ParseParam`. -/
def ascii_tolower_code (n : Nat) : Nat := if 65 ≤ n ∧ n ≤ 90 then n + 32 else n

/-- ASCII `toupper` on a character code (`ParseParam` hex conversion). -/
def ascii_toupper_code (n : Nat) : Nat := if 97 ≤ n ∧ n ≤ 122 then n - 32 else n

/-- C `isdigit` on a character code. -/
def c_isdigit_code (n : Nat) : Bool := decide (48 ≤ n ∧ n ≤ 57)

/-- C `isxdigit` on a character code. -/
def c_isxdigit_code (n : Nat) : Bool :=
  decide ((48 ≤ n ∧ n ≤ 57) ∨ (65 ≤ n ∧ n ≤ 70) ∨ (97 ≤ n ∧ n ≤ 102))

/-- C `isspace` on a character code: space plus the five control
whitespace characters 0x09 to 0x0d. -/
def c_isspace_code (n : Nat) : Bool := decide (n = 32 ∨ (9 ≤ n ∧ n ≤ 13))

/-- Wrap an integer into the value range of a C `int32_t`
(the `int32_t val` accumulator of `ParseParam`). -/
def int32wrap (n : Int) : Int := (n + 2147483648) % 4294967296 - 2147483648

/-- C `strcasecmp`, character by character over the two strings; result 0
means the strings are equal up to ASCII case.  A list end stands for the
NUL terminator of the C string (`tolower` of NUL is NUL, code 0). -/
def strcasecmp : List Char → List Char → Int
  | [], [] => 0
  | [], b :: _ => 0 - (ascii_tolower_code b.toNat : Int)
  | a :: _, [] => (ascii_tolower_code a.toNat : Int)
  | a :: as, b :: bs =>
    if ascii_tolower_code a.toNat = ascii_tolower_code b.toNat then strcasecmp as bs
    else (ascii_tolower_code a.toNat : Int) - (ascii_tolower_code b.toNat : Int)

/-- CommandLine.h line 53:
`typedef int8_t (* pfnCmdLine)(int8_t argc, char * argv[])`. -/
abbrev pfnCmdLine : Type := Nat → List (List Char) → Int

/-- CommandLine.h lines 63-73: one entry of the application command table
`g_sCmdTable`.  The table itself is a `List tCmdLineEntry`; the sentinel
entry with a NUL command-name pointer is represented by the end of the
list. -/
structure tCmdLineEntry where
  pcCmd : List Char
  pfnCmd : pfnCmdLine
  pcHelp : List Char

/-- The argument-splitting loop of `CmdLineProcess` (CommandLine.cpp lines
281-330).  The loop walks the line; a delimiter byte is overwritten with NUL
(so an already recorded argument, a pointer into the buffer, later reads up
to the next delimiter position — here captured by `takeWhile`), and a
non-delimiter byte seen while `bFindArg` is set starts a new argument unless
`CMDLINE_MAX_ARGS` arguments exist already, in which case
`CMDLINE_TOO_MANY_ARGS` is returned at once (here `none`). -/
def cmdLineTokenizeGo (delimiter : Char) :
    List Char → Bool → Nat → List (List Char) → Option (Nat × List (List Char))
  | [], _, argc, argv => some (argc, argv.reverse)
  | c :: rest, bFindArg, argc, argv =>
    if c = delimiter then
      cmdLineTokenizeGo delimiter rest true argc argv
    else if bFindArg then
      if argc < CMDLINE_MAX_ARGS then
        cmdLineTokenizeGo delimiter rest false (argc + 1)
          (((c :: rest).takeWhile (fun x => x != delimiter)) :: argv)
      else none
    else
      cmdLineTokenizeGo delimiter rest false argc argv

/-- Tokenization as `CmdLineProcess` starts it: `argc = 0`, `bFindArg = 1`,
scanning from the beginning of the line (CommandLine.cpp lines 263-276). -/
def cmdLineTokenize (delimiter : Char) (pcCmdLine : List Char) :
    Option (Nat × List (List Char)) :=
  cmdLineTokenizeGo delimiter pcCmdLine true 0 []

/-- The table-scan loop of `CmdLineProcess` (CommandLine.cpp lines 341-388):
return the first entry whose name `strcasecmp`-matches `argv[0]`; reaching
the sentinel (end of list) gives `none`. -/
def findCmdEntry (name : List Char) : List tCmdLineEntry → Option tCmdLineEntry
  | [] => none
  | entry :: rest =>
    if strcasecmp name entry.pcCmd = 0 then some entry else findCmdEntry name rest

/-- CommandLine.cpp lines 259-403, `CmdLineProcess`: split the line into
arguments (too many arguments aborts at once), then — only when at least one
argument was found — scan the command table and on a match call the entry
handler with `(argc, argv)` and return its status.  Otherwise return
`CMDLINE_BAD_CMD`, or the value of the configured default handler. -/
def CmdLineProcess (delimiter : Char) (g_sCmdTable : List tCmdLineEntry)
    (defaultFunc : Option pfnCmdLine) (pcCmdLine : List Char) : Int :=
  match cmdLineTokenize delimiter pcCmdLine with
  | none => CMDLINE_TOO_MANY_ARGS
  | some (argc, argv) =>
    match (if argc ≠ 0 then findCmdEntry (argv.headD []) g_sCmdTable else none) with
    | some entry => entry.pfnCmd argc argv
    | none =>
      match defaultFunc with
      | none => CMDLINE_BAD_CMD
      | some f => f argc argv

/-- The leading-whitespace skip at the top of `ParseParam`
(CommandLine.cpp lines 437-450). -/
def parseSkipSpace (param : List Char) : List Char :=
  param.dropWhile (fun c => c_isspace_code c.toNat)

/-- The hex-digit accumulation loop of `ParseParam` (CommandLine.cpp lines
471-490): each character is upper-cased, must be a hex digit, and feeds
`val = val * 16 + digit` in `int32_t` arithmetic; a bad digit returns
`BADPARAM` (here `none`). -/
def hexAccum : List Char → Int → Option Int
  | [], val => some val
  | c :: rest, val =>
    if c_isxdigit_code (ascii_toupper_code c.toNat) then
      hexAccum rest (int32wrap (val * 16 +
        (if c_isdigit_code (ascii_toupper_code c.toNat) then
          (ascii_toupper_code c.toNat : Int) - 48
        else
          ((ascii_toupper_code c.toNat : Int) - 65) + 10)))
    else none

/-- The decimal-digit accumulation loop of `ParseParam` (CommandLine.cpp
lines 510-522): every character must be a decimal digit and feeds
`val = val * 10 + digit` in `int32_t` arithmetic; a bad digit returns
`BADPARAM` (here `none`). -/
def decAccum : List Char → Int → Option Int
  | [], val => some val
  | c :: rest, val =>
    if c_isdigit_code c.toNat then
      decAccum rest (int32wrap (val * 10 + ((c.toNat : Int) - 48)))
    else none

/-- CommandLine.cpp lines 431-529, `ParseParam`: skip leading whitespace;
a leading double quote demands a trailing double quote (`STRVAL`); a
leading `0x`/`0X` starts hex conversion; a leading minus records a negative
sign, otherwise the first character must be a digit; then decimal
conversion.  The result pairs the returned type code with the value stored
through `retval` (`none` when the code stores no value). -/
def ParseParam (param : List Char) : Int × Option Int :=
  let p := parseSkipSpace param
  if p.headD NUL = '\"' then
    if p.getLastD NUL = '\"' then (STRVAL, none) else (BADPARAM, none)
  else if p.headD NUL = '0' ∧ ascii_tolower_code (p.getD 1 NUL).toNat = 120 then
    match hexAccum (p.drop 2) 0 with
    | some val => (HEXVAL, some val)
    | none => (BADPARAM, none)
  else if p.headD NUL = '-' then
    match decAccum p.tail 0 with
    | some val => (DECVAL, some (int32wrap (0 - val)))
    | none => (BADPARAM, none)
  else if !c_isdigit_code (p.headD NUL).toNat then
    (BADPARAM, none)
  else
    match decAccum p 0 with
    | some val => (DECVAL, some val)
    | none => (BADPARAM, none)

/-- Result of the byte-consuming loop of `DoCmdLine` (CommandLine.cpp lines
130-171): either the stream ran dry before the loop ended (`return 0`,
keeping the partial buffer for the next poll), or the loop finished — by a
terminator break or by the loop index reaching `CMD_BUF_SIZE - 1` — and the
buffered line falls through to command processing. -/
inductive ScanResult where
  | noCmd (buf : List Char) (rest : List Nat)
  | complete (buf : List Char) (rest : List Nat)
deriving DecidableEq

/-- Buffer component of a `ScanResult`. -/
def scanBuf : ScanResult → List Char
  | ScanResult.noCmd buf _ => buf
  | ScanResult.complete buf _ => buf

/-- The `for` loop of `DoCmdLine` (CommandLine.cpp lines 130-171).  `fuel`
counts the remaining loop iterations `(CMD_BUF_SIZE - 1) - i`; the buffer
is the list of characters at positions `0 ..< input.index`.  A byte equal
to either configured terminator ends the loop (and is itself buffered when
it is not CR or LF); backspace removes the last buffered character when
there is one; LF is ignored; anything else is appended. -/
def scanChars (t0 t1 : Char) : Nat → List Nat → List Char → ScanResult
  | 0, bytes, buf => ScanResult.complete buf bytes
  | _ + 1, [], buf => ScanResult.noCmd buf []
  | fuel + 1, b :: rest, buf =>
    if maskChar b = t0 ∨ maskChar b = t1 then
      ScanResult.complete
        (if maskChar b ≠ '\r' ∧ maskChar b ≠ '\n' then buf ++ [maskChar b] else buf) rest
    else if maskChar b = CHAR_BS then
      scanChars t0 t1 fuel rest (if buf.length ≠ 0 then buf.dropLast else buf)
    else if maskChar b = '\n' then
      scanChars t0 t1 fuel rest buf
    else
      scanChars t0 t1 fuel rest (buf ++ [maskChar b])

/-- Poll outcome of `DoCmdLine`: the returned status (0 or 1), the status
returned by `CmdLineProcess` when a completed non-empty line was
dispatched, the new line-buffer state, and the bytes left unread. -/
structure PollOutcome where
  ret : Int
  dispatched : Option Int
  buf : List Char
  rest : List Nat
deriving DecidableEq

/-- The default terminator configuration established by `SetDefaults`
(CommandLine.cpp line 93, `strcpy(terminators, "\r")`): slot 0 holds CR and
slot 1 holds the NUL character. -/
def defaultTerminators : Char × Char := ('\r', NUL)

/-- CommandLine.cpp lines 116-228, `DoCmdLine`: report 0 when no byte is
available; otherwise run the scan loop, and when it completes, NUL-teminate
the buffer (reading it as a string cuts at the first NUL, as `strlen`
does), dispatch it through `CmdLineProcess` when non-empty, reset the
buffer index and report 1. -/
def DoCmdLine (delimiter t0 t1 : Char) (g_sCmdTable : List tCmdLineEntry)
    (defaultFunc : Option pfnCmdLine) (buf : List Char) (bytes : List Nat) :
    PollOutcome :=
  if bytes.isEmpty then ⟨0, none, buf, bytes⟩
  else
    match scanChars t0 t1 (CMD_BUF_SIZE - 1 - buf.length) bytes buf with
    | ScanResult.noCmd buf2 rest => ⟨0, none, buf2, rest⟩
    | ScanResult.complete buf2 rest =>
      if 0 < (buf2.takeWhile (fun c => c != NUL)).length then
        ⟨1, some (CmdLineProcess delimiter g_sCmdTable defaultFunc
            (buf2.takeWhile (fun c => c != NUL))), [], rest⟩
      else ⟨1, none, [], rest⟩

/-- Spec-side definition, written from the spec text: the delimiter split of
a line with consecutive delimiters collapsed and no empty tokens.  `cur`
holds the characters of the token being accumulated, in reverse. -/
def specSplitGo (delimiter : Char) : List Char → List Char → List (List Char)
  | [], cur => if cur = [] then [] else [cur.reverse]
  | c :: rest, cur =>
    if c = delimiter then
      if cur = [] then specSplitGo delimiter rest []
      else cur.reverse :: specSplitGo delimiter rest []
    else specSplitGo delimiter rest (c :: cur)

/-- Spec-side delimiter split of a whole line (collapsed, no empty
tokens). -/
def specDelimSplit (delimiter : Char) (line : List Char) : List (List Char) :=
  specSplitGo delimiter line []

/-- Spec-side predicate: every character is a decimal digit. -/
def allDigits (l : List Char) : Bool := l.all (fun c => c_isdigit_code c.toNat)

/-- Spec-side decimal value of a digit string, accumulated from `v`. -/
def digitsValFrom : Nat → List Char → Nat
  | v, [] => v
  | v, c :: rest => digitsValFrom (10 * v + (c.toNat - 48)) rest

/-- Spec-side decimal value of a digit string. -/
def digitsVal (l : List Char) : Nat := digitsValFrom 0 l

/-! Helper lemmas about the tokenizer. -/

lemma length_dropWhile_le (p : Char → Bool) (l : List Char) :
    (l.dropWhile p).length ≤ l.length := by
  induction l with
  | nil => simp
  | cons c rest ih =>
    by_cases h : p c
    · rw [List.dropWhile_cons_of_pos h]
      exact Nat.le_trans ih (Nat.le_succ _)
    · rw [List.dropWhile_cons_of_neg h]

lemma cmdLineTokenizeGo_notFind (delimiter : Char) :
    ∀ (cs : List Char) (argc : Nat) (argv : List (List Char)),
      cmdLineTokenizeGo delimiter cs false argc argv =
        cmdLineTokenizeGo delimiter (cs.dropWhile (fun x => x != delimiter)) true argc argv := by
  intro cs
  induction cs with
  | nil => intro argc argv; simp [cmdLineTokenizeGo]
  | cons c rest ih =>
    intro argc argv
    by_cases h : c = delimiter
    · subst h
      simp [cmdLineTokenizeGo, List.dropWhile_cons]
    · have hb : (c != delimiter) = true := by simp [h]
      have hdw : List.dropWhile (fun x => x != delimiter) (c :: rest)
          = List.dropWhile (fun x => x != delimiter) rest := by
        simp [List.dropWhile_cons, hb]
      rw [hdw]
      simp [cmdLineTokenizeGo, h, ih]

lemma specSplitGo_cons_token (delimiter : Char) :
    ∀ (cs cur : List Char), cur ≠ [] →
      specSplitGo delimiter cs cur =
        (cur.reverse ++ cs.takeWhile (fun x => x != delimiter)) ::
          specSplitGo delimiter (cs.dropWhile (fun x => x != delimiter)) [] := by
  intro cs
  induction cs with
  | nil => intro cur h; simp [specSplitGo, h]
  | cons c rest ih =>
    intro cur h
    by_cases hc : c = delimiter
    · subst hc
      simp [specSplitGo, h, List.takeWhile_cons, List.dropWhile_cons]
    · have hb : (c != delimiter) = true := by simp [hc]
      have htw : List.takeWhile (fun x => x != delimiter) (c :: rest)
          = c :: List.takeWhile (fun x => x != delimiter) rest := by
        simp [List.takeWhile_cons, hb]
      have hdw : List.dropWhile (fun x => x != delimiter) (c :: rest)
          = List.dropWhile (fun x => x != delimiter) rest := by
        simp [List.dropWhile_cons, hb]
      rw [htw, hdw]
      have hrec := ih (c :: cur) (by simp)
      have hgo : specSplitGo delimiter (c :: rest) cur = specSplitGo delimiter rest (c :: cur) := by
        simp [specSplitGo, hc]
      rw [hgo, hrec]
      simp [List.reverse_cons, List.append_assoc]

lemma specSplitGo_ne_nil (delimiter : Char) :
    ∀ (cs cur t : List Char), t ∈ specSplitGo delimiter cs cur → t ≠ [] := by
  intro cs
  induction cs with
  | nil =>
    intro cur t ht
    by_cases h : cur = []
    · simp [specSplitGo, h] at ht
    · have ht2 : t = cur.reverse := by simpa [specSplitGo, h] using ht
      subst ht2
      simpa using h
  | cons c rest ih =>
    intro cur t ht
    by_cases hc : c = delimiter
    · by_cases h : cur = []
      · refine ih [] t ?_
        simpa [specSplitGo, hc, h] using ht
      · have ht2 : t = cur.reverse ∨ t ∈ specSplitGo delimiter rest [] := by
          simpa [specSplitGo, hc, h] using ht
        rcases ht2 with h1 | h1
        · subst h1; simpa using h
        · exact ih [] t h1
    · refine ih (c :: cur) t ?_
      simpa [specSplitGo, hc] using ht

lemma cmdLineTokenizeGo_spec (delimiter : Char) :
    ∀ (n : Nat) (cs : List Char), cs.length ≤ n →
      ∀ (argc : Nat) (argv : List (List Char)), argc ≤ CMDLINE_MAX_ARGS →
        cmdLineTokenizeGo delimiter cs true argc argv =
          (if argc + (specDelimSplit delimiter cs).length ≤ CMDLINE_MAX_ARGS then
            some (argc + (specDelimSplit delimiter cs).length,
                  argv.reverse ++ specDelimSplit delimiter cs)
          else none) := by
  intro n
  induction n with
  | zero =>
    intro cs hcs argc argv hargc
    have hnil : cs = [] := List.length_eq_zero.mp (Nat.le_zero.mp hcs)
    subst hnil
    simp [cmdLineTokenizeGo, specDelimSplit, specSplitGo, hargc]
  | succ n ih =>
    intro cs hcs argc argv hargc
    cases cs with
    | nil => simp [cmdLineTokenizeGo, specDelimSplit, specSplitGo, hargc]
    | cons c rest =>
      have hrestn : rest.length ≤ n := by
        simp only [List.length_cons] at hcs; omega
      by_cases hc : c = delimiter
      · have hsplit : specDelimSplit delimiter (c :: rest)
            = specDelimSplit delimiter rest := by
          simp [specDelimSplit, specSplitGo, hc]
        rw [hsplit]
        have hih := ih rest hrestn argc argv hargc
        calc cmdLineTokenizeGo delimiter (c :: rest) true argc argv
            = cmdLineTokenizeGo delimiter rest true argc argv := by
              simp [cmdLineTokenizeGo, hc]
          _ = _ := hih
      · have hb : (c != delimiter) = true := by simp [hc]
        have hsplit : specDelimSplit delimiter (c :: rest) =
            (c :: rest.takeWhile (fun x => x != delimiter)) ::
              specDelimSplit delimiter (rest.dropWhile (fun x => x != delimiter)) := by
          have h1 : specSplitGo delimiter (c :: rest) [] = specSplitGo delimiter rest [c] := by
            simp [specSplitGo, hc]
          have h2 := specSplitGo_cons_token delimiter rest [c] (by simp)
          simp [specDelimSplit, h1, h2]
        have htk : (c :: rest).takeWhile (fun x => x != delimiter)
            = c :: rest.takeWhile (fun x => x != delimiter) :=
          List.takeWhile_cons_of_pos hb
        by_cases ha : argc < CMDLINE_MAX_ARGS
        · have hdlen : (rest.dropWhile (fun x => x != delimiter)).length ≤ n :=
            Nat.le_trans (length_dropWhile_le _ rest) hrestn
          have hrec := ih (rest.dropWhile (fun x => x != delimiter)) hdlen (argc + 1)
              (((c :: rest).takeWhile (fun x => x != delimiter)) :: argv) (by omega)
          have hstep : cmdLineTokenizeGo delimiter (c :: rest) true argc argv
              = cmdLineTokenizeGo delimiter rest false (argc + 1)
                  (((c :: rest).takeWhile (fun x => x != delimiter)) :: argv) := by
            simp [cmdLineTokenizeGo, hc, ha]
          rw [hstep, cmdLineTokenizeGo_notFind delimiter rest, hrec, hsplit, htk]
          by_cases hcond : argc + 1 +
              (specDelimSplit delimiter (rest.dropWhile (fun x => x != delimiter))).length
              ≤ CMDLINE_MAX_ARGS
          · rw [if_pos hcond, if_pos (by simp only [List.length_cons]; omega)]
            simp only [List.length_cons, List.reverse_cons, List.append_assoc,
              List.cons_append, List.nil_append, Option.some.injEq, Prod.mk.injEq]
            exact ⟨by omega, trivial⟩
          · rw [if_neg hcond, if_neg (by simp only [List.length_cons]; omega)]
        · have hstep : cmdLineTokenizeGo delimiter (c :: rest) true argc argv = none := by
            simp [cmdLineTokenizeGo, hc, ha]
          rw [hstep, hsplit, if_neg (by simp only [List.length_cons]; omega)]

lemma cmdLineTokenize_spec (delimiter : Char) (line : List Char) :
    cmdLineTokenize delimiter line =
      (if (specDelimSplit delimiter line).length ≤ CMDLINE_MAX_ARGS then
        some ((specDelimSplit delimiter line).length, specDelimSplit delimiter line)
      else none) := by
  have h := cmdLineTokenizeGo_spec delimiter line.length line (Nat.le_refl _) 0 []
      (by simp [CMDLINE_MAX_ARGS])
  simpa [cmdLineTokenize] using h

/-! Helper lemmas about dispatch, the scan loop and the numeric loops. -/

lemma ascii_tolower_code_ne_zero {n : Nat} (h : n ≠ 0) : ascii_tolower_code n ≠ 0 := by
  unfold ascii_tolower_code
  split <;> omega

lemma strcasecmp_zero_iff :
    ∀ (a b : List Char), (∀ c ∈ a, c.toNat ≠ 0) → (∀ c ∈ b, c.toNat ≠ 0) →
      (strcasecmp a b = 0 ↔
        a.map (fun c => ascii_tolower_code c.toNat)
          = b.map (fun c => ascii_tolower_code c.toNat)) := by
  intro a
  induction a with
  | nil =>
    intro b _ hb
    cases b with
    | nil => simp [strcasecmp]
    | cons d bs =>
      simp only [strcasecmp, List.map_nil, List.map_cons]
      constructor
      · intro h0
        exfalso
        have hd := ascii_tolower_code_ne_zero (hb d (by simp))
        omega
      · intro h0
        exact absurd h0 (by simp)
  | cons c as ih =>
    intro b ha hb
    cases b with
    | nil =>
      simp only [strcasecmp, List.map_cons, List.map_nil]
      constructor
      · intro h0
        exfalso
        have hc := ascii_tolower_code_ne_zero (ha c (by simp))
        omega
      · intro h0
        exact absurd h0 (by simp)
    | cons d bs =>
      by_cases h : ascii_tolower_code c.toNat = ascii_tolower_code d.toNat
      · have hrec := ih bs (fun x hx => ha x (by simp [hx])) (fun x hx => hb x (by simp [hx]))
        simp only [strcasecmp, if_pos h, List.map_cons, List.cons.injEq]
        rw [hrec]
        simp [h]
      · simp only [strcasecmp, if_neg h, List.map_cons, List.cons.injEq]
        constructor
        · intro h0
          exfalso
          omega
        · rintro ⟨h1, _⟩
          exact absurd h1 h

lemma findCmdEntry_of_mismatch (name : List Char) :
    ∀ (tbl : List tCmdLineEntry), (∀ e ∈ tbl, strcasecmp name e.pcCmd ≠ 0) →
      findCmdEntry name tbl = none := by
  intro tbl
  induction tbl with
  | nil => intro _; rfl
  | cons e rest ih =>
    intro h
    have he := h e (by simp)
    simp only [findCmdEntry, if_neg he]
    exact ih (fun x hx => h x (by simp [hx]))

lemma findCmdEntry_first (name : List Char) (entry : tCmdLineEntry) :
    ∀ (pre post : List tCmdLineEntry),
      (∀ e ∈ pre, strcasecmp name e.pcCmd ≠ 0) → strcasecmp name entry.pcCmd = 0 →
      findCmdEntry name (pre ++ entry :: post) = some entry := by
  intro pre
  induction pre with
  | nil =>
    intro post _ hm
    simp [findCmdEntry, hm]
  | cons e rest ih =>
    intro post h hm
    have he := h e (by simp)
    simp only [List.cons_append, findCmdEntry, if_neg he]
    exact ih post (fun x hx => h x (by simp [hx])) hm

lemma takeWhile_ne_nul (l : List Char) (h : NUL ∉ l) :
    l.takeWhile (fun c => c != NUL) = l := by
  induction l with
  | nil => rfl
  | cons c rest ih =>
    simp only [List.mem_cons, not_or] at h
    have hc : (c != NUL) = true := by
      simp only [bne_iff_ne, ne_eq]
      exact fun he => h.1 he.symm
    simp [List.takeWhile_cons, hc, ih h.2]

lemma takeWhile_append_nul (l : List Char) (h : NUL ∉ l) :
    (l ++ [NUL]).takeWhile (fun c => c != NUL) = l := by
  induction l with
  | nil => simp [List.takeWhile_cons]
  | cons c rest ih =>
    simp only [List.mem_cons, not_or] at h
    have hc : (c != NUL) = true := by
      simp only [bne_iff_ne, ne_eq]
      exact fun he => h.1 he.symm
    simp [List.takeWhile_cons, hc, ih h.2]

lemma scanChars_ordinary (t0 t1 : Char) :
    ∀ (tk rest : List Nat) (buf : List Char),
      (∀ b ∈ tk, maskChar b ≠ t0 ∧ maskChar b ≠ t1 ∧ maskChar b ≠ CHAR_BS ∧ maskChar b ≠ '\n') →
      scanChars t0 t1 tk.length (tk ++ rest) buf =
        ScanResult.complete (buf ++ tk.map maskChar) rest := by
  intro tk
  induction tk with
  | nil =>
    intro rest buf _
    simp [scanChars]
  | cons b tk ih =>
    intro rest buf h
    have hb := h b (by simp)
    simp only [List.length_cons, List.cons_append, scanChars]
    rw [if_neg (by
        rintro (h1 | h1)
        · exact hb.1 h1
        · exact hb.2.1 h1),
      if_neg hb.2.2.1, if_neg hb.2.2.2]
    show scanChars t0 t1 tk.length (tk ++ rest) (buf ++ [maskChar b])
        = ScanResult.complete (buf ++ List.map maskChar (b :: tk)) rest
    rw [ih rest (buf ++ [maskChar b]) (fun x hx => h x (by simp [hx]))]
    simp

lemma scanChars_length_le (t0 t1 : Char) :
    ∀ (fuel : Nat) (bytes : List Nat) (buf : List Char),
      buf.length + fuel ≤ CMD_BUF_SIZE - 1 →
      (scanBuf (scanChars t0 t1 fuel bytes buf)).length ≤ CMD_BUF_SIZE - 1 := by
  intro fuel
  induction fuel with
  | zero =>
    intro bytes buf h
    simpa [scanChars, scanBuf] using h
  | succ fuel ih =>
    intro bytes buf h
    cases bytes with
    | nil =>
      simp only [scanChars, scanBuf]
      omega
    | cons b rest =>
      simp only [scanChars]
      by_cases h1 : maskChar b = t0 ∨ maskChar b = t1
      · rw [if_pos h1]
        simp only [scanBuf]
        by_cases h2 : maskChar b ≠ '\r' ∧ maskChar b ≠ '\n'
        · rw [if_pos h2]
          simp only [List.length_append, List.length_cons, List.length_nil]
          omega
        · rw [if_neg h2]
          omega
      · rw [if_neg h1]
        by_cases h2 : maskChar b = CHAR_BS
        · rw [if_pos h2]
          by_cases h3 : buf.length ≠ 0
          · rw [if_pos h3]
            refine ih rest _ ?_
            have hdl : buf.dropLast.length = buf.length - 1 := List.length_dropLast buf
            omega
          · rw [if_neg h3]
            exact ih rest buf (by omega)
        · rw [if_neg h2]
          by_cases h3 : maskChar b = '\n'
          · rw [if_pos h3]
            exact ih rest buf (by omega)
          · rw [if_neg h3]
            refine ih rest _ ?_
            simp only [List.length_append, List.length_cons, List.length_nil]
            omega

lemma int32wrap_eq_self {n : Int} (h1 : -2147483648 ≤ n) (h2 : n < 2147483648) :
    int32wrap n = n := by
  unfold int32wrap
  rw [Int.emod_eq_of_lt (by omega) (by omega)]
  omega

lemma digitsValFrom_le (l : List Char) : ∀ v : Nat, v ≤ digitsValFrom v l := by
  induction l with
  | nil =>
    intro v
    exact Nat.le_refl v
  | cons c rest ih =>
    intro v
    exact le_trans (by omega) (ih (10 * v + (c.toNat - 48)))

lemma decAccum_digits (l : List Char) : ∀ v : Nat, allDigits l = true →
    digitsValFrom v l < 2147483648 →
    decAccum l (v : Int) = some ((digitsValFrom v l : Nat) : Int) := by
  induction l with
  | nil =>
    intro v _ _
    rfl
  | cons c rest ih =>
    intro v hall hlt
    simp only [allDigits, List.all_cons, Bool.and_eq_true] at hall
    have hc := hall.1
    have hc48 : 48 ≤ c.toNat ∧ c.toNat ≤ 57 := by simpa [c_isdigit_code] using hc
    simp only [decAccum, if_pos hc]
    have hle := digitsValFrom_le rest (10 * v + (c.toNat - 48))
    have hlt2 : digitsValFrom (10 * v + (c.toNat - 48)) rest < 2147483648 := hlt
    have hcast : (v : Int) * 10 + ((c.toNat : Int) - 48)
        = ((10 * v + (c.toNat - 48) : Nat) : Int) := by omega
    rw [hcast, int32wrap_eq_self (by omega) (by omega)]
    exact ih (10 * v + (c.toNat - 48)) hall.2 hlt2

lemma decAccum_not_digits (l : List Char) :
    ∀ v : Int, allDigits l = false → decAccum l v = none := by
  induction l with
  | nil =>
    intro v h
    simp [allDigits] at h
  | cons c rest ih =>
    intro v h
    by_cases hc : c_isdigit_code c.toNat = true
    · have hrest : allDigits rest = false := by
        simpa [allDigits, List.all_cons, hc] using h
      simp only [decAccum, if_pos hc]
      exact ih _ hrest
    · simp only [decAccum, if_neg hc]

/-! Claim theorems. -/

/-- C1: for every completed input line whose collapsed delimiter split has
at most `CMDLINE_MAX_ARGS` tokens, the tokenization performed by
`CmdLineProcess` produces exactly the delimiter-split of the line with
consecutive delimiters collapsed and no empty tokens; the witness feeds the
bytes of `"add 1 2\r"` through the scan loop with delimiter `' '` and
terminator `'\r'` and obtains `argc = 3`, `argv = ["add", "1", "2"]`. -/
theorem c1_tokenize_matches_split (delimiter : Char) (line : List Char)
    (hargs : (specDelimSplit delimiter line).length ≤ CMDLINE_MAX_ARGS) :
    cmdLineTokenize delimiter line
      = some ((specDelimSplit delimiter line).length, specDelimSplit delimiter line)
    ∧ ∀ t ∈ specDelimSplit delimiter line, t ≠ [] := by
  constructor
  · rw [cmdLineTokenize_spec delimiter line, if_pos hargs]
  · exact fun t ht => specSplitGo_ne_nil delimiter line [] t ht

/-- Witness for C1: the bytes `"add 1 2\r"` with terminator CR assemble the
line `"add 1 2"`, and tokenizing it with delimiter `' '` yields exactly
`argc = 3` and `argv = ["add", "1", "2"]`. -/
theorem c1_tokenize_matches_split_witness :
    scanChars '\r' NUL (CMD_BUF_SIZE - 1) ("add 1 2\r".toList.map Char.toNat) []
      = ScanResult.complete ("add 1 2".toList) []
    ∧ cmdLineTokenize ' ' ("add 1 2".toList)
      = some (3, ["add".toList, "1".toList, "2".toList]) := by
  constructor
  · decide
  · exact (c1_tokenize_matches_split ' ' ("add 1 2".toList) (by decide)).1.trans (by decide)

/-- C2: dispatch scans the command table in order from the first entry; the
first token is compared to each entry name with `strcasecmp`, which (second
conjunct) succeeds exactly on ASCII case-folded equality; the first
matching entry's handler is invoked with `(argc, argv)` and its status
returned verbatim, whatever entries — including duplicates of the same
name — follow it. -/
theorem c2_first_match_dispatch (delimiter : Char) (line : List Char)
    (defaultFunc : Option pfnCmdLine) (pre post : List tCmdLineEntry)
    (entry : tCmdLineEntry) (argc : Nat) (argv : List (List Char))
    (htok : cmdLineTokenize delimiter line = some (argc, argv))
    (hargc : argc ≠ 0)
    (hpre : ∀ e ∈ pre, strcasecmp (argv.headD []) e.pcCmd ≠ 0)
    (hmatch : strcasecmp (argv.headD []) entry.pcCmd = 0) :
    CmdLineProcess delimiter (pre ++ entry :: post) defaultFunc line
      = entry.pfnCmd argc argv
    ∧ ∀ a b : List Char, (∀ c ∈ a, c.toNat ≠ 0) → (∀ c ∈ b, c.toNat ≠ 0) →
        (strcasecmp a b = 0 ↔
          a.map (fun c => ascii_tolower_code c.toNat)
            = b.map (fun c => ascii_tolower_code c.toNat)) := by
  constructor
  · simp only [CmdLineProcess, htok, if_pos hargc,
      findCmdEntry_first (argv.headD []) entry pre post hpre hmatch]
  · exact strcasecmp_zero_iff

/-- Witness for C2: with a table holding `HELP`, then `LIST` (status 7),
then a duplicate `list` (status 9), the input line `"list 1"` dispatches to
the `LIST` entry case-insensitively and returns 7, not 9. -/
theorem c2_first_match_dispatch_witness :
    CmdLineProcess ' '
      [⟨"HELP".toList, fun _ _ => 5, []⟩,
       ⟨"LIST".toList, fun _ _ => 7, []⟩,
       ⟨"list".toList, fun _ _ => 9, []⟩] none ("list 1".toList) = 7 := by
  have h := c2_first_match_dispatch ' ' ("list 1".toList) none
      [⟨"HELP".toList, fun _ _ => 5, []⟩]
      [⟨"list".toList, fun _ _ => 9, []⟩]
      ⟨"LIST".toList, fun _ _ => 7, []⟩
      2 ["list".toList, "1".toList]
      (by decide) (by decide) (by decide) (by decide)
  exact h.1

/-- C3: a line that splits into more than `CMDLINE_MAX_ARGS` tokens makes
`CmdLineProcess` return `CMDLINE_TOO_MANY_ARGS` for every command table and
every default handler — no table entry is consulted and no handler (table
handler or default handler) is invoked, so the already-identified tokens
are not dispatched. -/
theorem c3_too_many_arguments (delimiter : Char) (line : List Char)
    (hmany : CMDLINE_MAX_ARGS < (specDelimSplit delimiter line).length) :
    ∀ (g_sCmdTable : List tCmdLineEntry) (defaultFunc : Option pfnCmdLine),
      CmdLineProcess delimiter g_sCmdTable defaultFunc line = CMDLINE_TOO_MANY_ARGS := by
  intro tbl df
  have htok : cmdLineTokenize delimiter line = none := by
    rw [cmdLineTokenize_spec delimiter line, if_neg (by omega)]
  simp [CmdLineProcess, htok]

/-- Witness for C3: eleven space-separated tokens yield
`CMDLINE_TOO_MANY_ARGS` even though the table holds a matching entry and a
default handler is installed. -/
theorem c3_too_many_arguments_witness :
    CMDLINE_MAX_ARGS < (specDelimSplit ' ' ("a b c d e f g h i j k".toList)).length
    ∧ CmdLineProcess ' ' [⟨"a".toList, fun _ _ => 3, []⟩] (some (fun _ _ => 4))
        ("a b c d e f g h i j k".toList) = CMDLINE_TOO_MANY_ARGS := by
  refine ⟨by decide, ?_⟩
  exact c3_too_many_arguments ' ' _ (by decide) _ _

/-- C4: when the first token of a tokenized line matches no command-table
entry, `CmdLineProcess` returns `CMDLINE_BAD_CMD` when no default handler
is installed; with a default handler installed it returns that handler's
value unchanged, and the handler receives the full `(argc, argv)` token
vector whose head is the unmatched first token. -/
theorem c4_unknown_command (delimiter : Char) (line : List Char)
    (g_sCmdTable : List tCmdLineEntry) (f : pfnCmdLine)
    (argc : Nat) (argv : List (List Char))
    (htok : cmdLineTokenize delimiter line = some (argc, argv))
    (hargc : argc ≠ 0)
    (hmiss : ∀ e ∈ g_sCmdTable, strcasecmp (argv.headD []) e.pcCmd ≠ 0) :
    CmdLineProcess delimiter g_sCmdTable none line = CMDLINE_BAD_CMD
    ∧ CmdLineProcess delimiter g_sCmdTable (some f) line = f argc argv := by
  have hfind := findCmdEntry_of_mismatch (argv.headD []) g_sCmdTable hmiss
  constructor
  · simp only [CmdLineProcess, htok, if_pos hargc, hfind]
  · simp only [CmdLineProcess, htok, if_pos hargc, hfind]

/-- Witness for C4: the unknown command `"foo 1"` returns `CMDLINE_BAD_CMD`
without a default handler, and with one installed it returns the handler's
value (42) computed from the full token vector. -/
theorem c4_unknown_command_witness :
    CmdLineProcess ' ' [⟨"HELP".toList, fun _ _ => 5, []⟩] none ("foo 1".toList)
      = CMDLINE_BAD_CMD
    ∧ CmdLineProcess ' ' [⟨"HELP".toList, fun _ _ => 5, []⟩]
        (some (fun _ _ => 42)) ("foo 1".toList) = 42 := by
  have h := c4_unknown_command ' ' ("foo 1".toList)
      [⟨"HELP".toList, fun _ _ => 5, []⟩] (fun _ _ => 42)
      2 ["foo".toList, "1".toList] (by decide) (by decide) (by decide)
  exact ⟨h.1, h.2⟩

/-- C5 (code evidence): `ParseParam` applied to the bare token `"0x"`
returns `HEXVAL` with stored value 0 — the hex accumulation loop runs zero
times over the empty remainder — and not `BADPARAM` as the specification
requires for an empty remainder after the `0x` opening. -/
theorem c5_hex_no_digits_eval :
    ParseParam ("0x".toList) = (HEXVAL, some 0)
    ∧ (HEXVAL, (some 0 : Option Int)) ≠ (BADPARAM, (none : Option Int)) := by
  decide

/-- C6 counterexample: the token `"-"` satisfies the claim's guard (after
whitespace skipping it starts with neither a double quote nor `0x`, and the
first character after the consumed minus sign is not a digit), yet
`ParseParam` returns `Decimal 0` instead of the `Bad` the claim requires. -/
theorem c6_counterexample :
    (parseSkipSpace ("-".toList)).headD NUL ≠ '\"'
    ∧ ¬((parseSkipSpace ("-".toList)).headD NUL = '0'
        ∧ ascii_tolower_code ((parseSkipSpace ("-".toList)).getD 1 NUL).toNat = 120)
    ∧ (parseSkipSpace ("-".toList)).headD NUL = '-'
    ∧ c_isdigit_code (((parseSkipSpace ("-".toList)).tail).headD NUL).toNat = false
    ∧ ParseParam ("-".toList) = (DECVAL, some 0)
    ∧ (DECVAL, (some 0 : Option Int)) ≠ (BADPARAM, (none : Option Int)) := by
  decide

/-- Unfolding equation of `ParseParam` with the leading-whitespace skip
made explicit (definitional). -/
lemma ParseParam_unfold (p0 : List Char) :
    ParseParam p0 =
      (if (parseSkipSpace p0).headD NUL = '\"' then
        (if (parseSkipSpace p0).getLastD NUL = '\"' then (STRVAL, none)
         else (BADPARAM, none))
      else if (parseSkipSpace p0).headD NUL = '0'
          ∧ ascii_tolower_code ((parseSkipSpace p0).getD 1 NUL).toNat = 120 then
        (match hexAccum ((parseSkipSpace p0).drop 2) 0 with
          | some val => (HEXVAL, some val)
          | none => (BADPARAM, none))
      else if (parseSkipSpace p0).headD NUL = '-' then
        (match decAccum (parseSkipSpace p0).tail 0 with
          | some val => (DECVAL, some (int32wrap (0 - val)))
          | none => (BADPARAM, none))
      else if !c_isdigit_code ((parseSkipSpace p0).headD NUL).toNat then
        (BADPARAM, none)
      else
        (match decAccum (parseSkipSpace p0) 0 with
          | some val => (DECVAL, some val)
          | none => (BADPARAM, none))) := rfl

/-- C6 (amended): for every token that after whitespace skipping starts
with neither a double quote nor the `0x`/`0X` opening: with a leading minus
sign, `ParseParam` accumulates all remaining characters as decimal digits
and returns `Decimal` of the negated value — in particular a lone minus
sign, whose digit string is empty, yields `Decimal 0` — while any
non-digit among them yields `Bad`; without a minus sign, a non-empty
all-digit token yields `Decimal` of its value, and an empty token, a
non-digit first character or any later non-digit yields `Bad`.  (Stated
with values below the `int32_t` wrap bound.) -/
theorem c6_decimal_amended (p0 : List Char)
    (hq : (parseSkipSpace p0).headD NUL ≠ '\"')
    (hx : ¬((parseSkipSpace p0).headD NUL = '0'
        ∧ ascii_tolower_code ((parseSkipSpace p0).getD 1 NUL).toNat = 120)) :
    ((parseSkipSpace p0).headD NUL = '-' →
        (allDigits (parseSkipSpace p0).tail = true →
          digitsVal (parseSkipSpace p0).tail < 2147483648 →
          ParseParam p0 = (DECVAL, some (-(digitsVal (parseSkipSpace p0).tail : Int))))
        ∧ (allDigits (parseSkipSpace p0).tail = false →
            ParseParam p0 = (BADPARAM, none)))
    ∧ ((parseSkipSpace p0).headD NUL ≠ '-' →
        ((parseSkipSpace p0) ≠ [] → allDigits (parseSkipSpace p0) = true →
          digitsVal (parseSkipSpace p0) < 2147483648 →
          ParseParam p0 = (DECVAL, some ((digitsVal (parseSkipSpace p0) : Int))))
        ∧ ((allDigits (parseSkipSpace p0) = false ∨ parseSkipSpace p0 = []) →
            ParseParam p0 = (BADPARAM, none))) := by
  constructor
  · intro hminus
    constructor
    · intro hall hlt
      have hlt2 : digitsValFrom 0 (parseSkipSpace p0).tail < 2147483648 := hlt
      have hdec0 : decAccum (parseSkipSpace p0).tail (0 : Int)
          = some ((digitsVal (parseSkipSpace p0).tail : Int)) := by
        simpa using decAccum_digits (parseSkipSpace p0).tail 0 hall hlt2
      rw [ParseParam_unfold p0, if_neg hq, if_neg hx, if_pos hminus]
      simp only [hdec0]
      rw [int32wrap_eq_self (by omega) (by omega)]
      simp [zero_sub]
    · intro hfail
      have hdecn := decAccum_not_digits (parseSkipSpace p0).tail 0 hfail
      rw [ParseParam_unfold p0, if_neg hq, if_neg hx, if_pos hminus]
      simp only [hdecn]
  · intro hnm
    constructor
    · intro hne hall hlt
      obtain ⟨c, rest, hp⟩ : ∃ c rest, parseSkipSpace p0 = c :: rest := by
        cases hpp : parseSkipSpace p0 with
        | nil => exact absurd hpp hne
        | cons c rest => exact ⟨c, rest, rfl⟩
      have hcd : c_isdigit_code ((parseSkipSpace p0).headD NUL).toNat = true := by
        rw [hp] at hall ⊢
        simp only [allDigits, List.all_cons, Bool.and_eq_true] at hall
        simpa using hall.1
      have hlt2 : digitsValFrom 0 (parseSkipSpace p0) < 2147483648 := hlt
      have hdec0 : decAccum (parseSkipSpace p0) (0 : Int)
          = some ((digitsVal (parseSkipSpace p0) : Int)) := by
        simpa using decAccum_digits (parseSkipSpace p0) 0 hall hlt2
      rw [ParseParam_unfold p0, if_neg hq, if_neg hx, if_neg hnm,
        if_neg (by rw [hcd]; decide)]
      simp only [hdec0]
    · intro hor
      rcases hor with hfail | hnil
      · by_cases hcd : c_isdigit_code ((parseSkipSpace p0).headD NUL).toNat = true
        · have hdecn := decAccum_not_digits (parseSkipSpace p0) 0 hfail
          rw [ParseParam_unfold p0, if_neg hq, if_neg hx, if_neg hnm,
            if_neg (by rw [hcd]; decide)]
          simp only [hdecn]
        · have hcd2 : c_isdigit_code ((parseSkipSpace p0).headD NUL).toNat = false :=
            Bool.eq_false_iff.mpr hcd
          rw [ParseParam_unfold p0, if_neg hq, if_neg hx, if_neg hnm,
            if_pos (by rw [hcd2]; decide)]
      · have hcd2 : c_isdigit_code ((parseSkipSpace p0).headD NUL).toNat = false := by
          rw [hnil]
          decide
        rw [ParseParam_unfold p0, if_neg hq, if_neg hx, if_neg hnm,
          if_pos (by rw [hcd2]; decide)]

/-- Witness for C6 (amended): `ParseParam "-42"` yields `Decimal (-42)` and
`ParseParam "12a"` yields `Bad`. -/
theorem c6_decimal_amended_witness :
    ParseParam ("-42".toList) = (DECVAL, some (-42))
    ∧ ParseParam ("12a".toList) = (BADPARAM, none) := by
  constructor
  · have h := ((c6_decimal_amended ("-42".toList) (by decide) (by decide)).1
      (by decide)).1 (by decide) (by decide)
    exact h.trans (by decide)
  · exact ((c6_decimal_amended ("12a".toList) (by decide) (by decide)).2
      (by decide)).2 (Or.inl (by decide))

/-- C7 counterexample: the single-character token of one double quote
starts with a quote and has trimmed length 1 (below the claim's minimum of
2), yet `ParseParam` returns `Str`, not `Bad`: the lone quote is its own
last character. -/
theorem c7_counterexample :
    (parseSkipSpace ("\"".toList)).headD NUL = '\"'
    ∧ (parseSkipSpace ("\"".toList)).length = 1
    ∧ ParseParam ("\"".toList) = (STRVAL, none)
    ∧ (STRVAL, (none : Option Int)) ≠ (BADPARAM, (none : Option Int)) := by
  decide

/-- C7 (amended): for every token whose first character after whitespace
skipping is a double quote, `ParseParam` returns `Str` exactly when the
last character of the trimmed token is also a double quote — with no
minimum-length requirement, so the single-character token of one double
quote, being its own last character, returns `Str` — and `Bad`
otherwise. -/
theorem c7_string_amended (p0 : List Char)
    (hq : (parseSkipSpace p0).headD NUL = '\"') :
    (ParseParam p0 = (STRVAL, none) ↔ (parseSkipSpace p0).getLastD NUL = '\"')
    ∧ ((parseSkipSpace p0).getLastD NUL ≠ '\"' → ParseParam p0 = (BADPARAM, none)) := by
  by_cases hl : (parseSkipSpace p0).getLastD NUL = '\"'
  · have hsv : ParseParam p0 = (STRVAL, none) := by
      rw [ParseParam_unfold p0, if_pos hq, if_pos hl]
    constructor
    · constructor
      · intro _
        exact hl
      · intro _
        exact hsv
    · intro h
      exact absurd hl h
  · have hbad : ParseParam p0 = (BADPARAM, none) := by
      rw [ParseParam_unfold p0, if_pos hq, if_neg hl]
    constructor
    · constructor
      · intro h
        rw [hbad] at h
        exact absurd h (by decide)
      · intro h
        exact absurd h hl
    · intro _
      exact hbad

/-- Witness for C7 (amended): `ParseParam` classifies the quoted token
around `hi` as `Str`. -/
theorem c7_string_amended_witness :
    ParseParam ("\"hi\"".toList) = (STRVAL, none) := by
  exact (c7_string_amended ("\"hi\"".toList) (by decide)).1.mpr (by decide)

/-- C8: during line assembly, a backspace byte removes exactly one
previously buffered character (first conjunct: the scan continues from the
buffer with its last character dropped, whose length is one less), a
backspace on an empty buffer leaves the cursor at 0 (second conjunct), and
across every sequence of received bytes the cursor never exceeds
`CMD_BUF_SIZE - 1` (third conjunct) — so the NUL the code writes at the
cursor before reading the buffer as a string always fits inside the
buffer.  The backspace conjuncts assume backspace is not configured as a
terminator, since the terminator comparison precedes the backspace check. -/
theorem c8_backspace_and_cursor_bound (t0 t1 : Char)
    (ht0 : t0 ≠ CHAR_BS) (ht1 : t1 ≠ CHAR_BS) :
    (∀ (fuel b : Nat) (bytes : List Nat) (buf : List Char),
        b % 128 = 8 → buf ≠ [] →
        scanChars t0 t1 (fuel + 1) (b :: bytes) buf
            = scanChars t0 t1 fuel bytes buf.dropLast
          ∧ buf.dropLast.length + 1 = buf.length)
    ∧ (∀ (fuel b : Nat) (bytes : List Nat),
        b % 128 = 8 →
        scanChars t0 t1 (fuel + 1) (b :: bytes) [] = scanChars t0 t1 fuel bytes [])
    ∧ (∀ (fuel : Nat) (bytes : List Nat) (buf : List Char),
        buf.length + fuel ≤ CMD_BUF_SIZE - 1 →
        (scanBuf (scanChars t0 t1 fuel bytes buf)).length ≤ CMD_BUF_SIZE - 1) := by
  have hch : ∀ b : Nat, b % 128 = 8 → maskChar b = CHAR_BS := by
    intro b hb
    unfold maskChar
    rw [hb]
    rfl
  refine ⟨?_, ?_, scanChars_length_le t0 t1⟩
  · intro fuel b bytes buf hb hne
    have hmask := hch b hb
    constructor
    · simp only [scanChars, hmask]
      rw [if_neg (by
          rintro (h1 | h1)
          · exact ht0 h1.symm
          · exact ht1 h1.symm),
        if_pos trivial,
        if_pos (by
          intro h0
          exact hne (List.length_eq_zero.mp h0))]
    · have hpos : 0 < buf.length := List.length_pos.mpr hne
      rw [List.length_dropLast]
      omega
  · intro fuel b bytes hb
    have hmask := hch b hb
    simp only [scanChars, hmask]
    rw [if_neg (by
        rintro (h1 | h1)
        · exact ht0 h1.symm
        · exact ht1 h1.symm),
      if_pos trivial]
    simp

/-- Witness for C8: with the default terminators, a backspace byte after
buffering `hi` resumes the scan from `h`, a backspace on an empty buffer
resumes from the empty buffer, and a full-capacity assembly keeps the
cursor at or below 79. -/
theorem c8_backspace_and_cursor_bound_witness :
    (scanChars '\r' NUL 3 [8, 13] ['h', 'i']
        = scanChars '\r' NUL 2 [13] (['h', 'i'].dropLast)
      ∧ (['h', 'i'].dropLast).length + 1 = ['h', 'i'].length)
    ∧ scanChars '\r' NUL 3 [8, 13] [] = scanChars '\r' NUL 2 [13] []
    ∧ (scanBuf (scanChars '\r' NUL 77 (List.replicate 90 97) ['h', 'i'])).length
        ≤ CMD_BUF_SIZE - 1 := by
  have h := c8_backspace_and_cursor_bound '\r' NUL (by decide) (by decide)
  exact ⟨h.1 2 8 [13] ['h', 'i'] (by decide) (by decide),
    h.2.1 2 8 [13] (by decide),
    h.2.2 77 (List.replicate 90 97) ['h', 'i'] (by decide)⟩

/-- C9 counterexample: 79 ordinary bytes (no terminator among them) fill
the buffer from empty in one poll; the claim says the accumulated content
is not dispatched by that poll, but `DoCmdLine` falls through to command
processing, dispatches the 79-character line (here returning
`CMDLINE_BAD_CMD` from an empty table with no default handler), reports 1
and resets the buffer. -/
theorem c9_counterexample :
    scanChars '\r' NUL (CMD_BUF_SIZE - 1) (List.replicate 79 97) []
      = ScanResult.complete (List.replicate 79 'a') []
    ∧ DoCmdLine ' ' '\r' NUL [] none [] (List.replicate 79 97)
      = ⟨1, some CMDLINE_BAD_CMD, [], []⟩ := by
  constructor
  · decide
  · decide

/-- C9 (amended): when ordinary bytes (not terminators, backspace or LF,
and none NUL-masked) fill the buffer to `CMD_BUF_SIZE - 1` before any
terminator is seen, the scan stops early and the accumulated content IS
NUL-terminated and dispatched through `CmdLineProcess` by that same poll,
which reports 1, resets the buffer and leaves the surplus bytes unread. -/
theorem c9_full_buffer_dispatch (delimiter t0 t1 : Char)
    (g_sCmdTable : List tCmdLineEntry) (defaultFunc : Option pfnCmdLine)
    (buf : List Char) (tk rest : List Nat)
    (hlen : buf.length < CMD_BUF_SIZE - 1)
    (htk : tk.length = CMD_BUF_SIZE - 1 - buf.length)
    (hord : ∀ b ∈ tk, maskChar b ≠ t0 ∧ maskChar b ≠ t1
        ∧ maskChar b ≠ CHAR_BS ∧ maskChar b ≠ '\n')
    (hnul : NUL ∉ buf ++ tk.map maskChar) :
    DoCmdLine delimiter t0 t1 g_sCmdTable defaultFunc buf (tk ++ rest)
      = ⟨1, some (CmdLineProcess delimiter g_sCmdTable defaultFunc
          (buf ++ tk.map maskChar)), [], rest⟩ := by
  have htkne : tk ≠ [] := by
    intro h0
    rw [h0] at htk
    simp only [List.length_nil] at htk
    omega
  have hbytes : (tk ++ rest).isEmpty = false := by
    cases tk with
    | nil => exact absurd rfl htkne
    | cons x xs => rfl
  unfold DoCmdLine
  rw [hbytes]
  simp only [Bool.false_eq_true, if_false]
  rw [htk.symm, scanChars_ordinary t0 t1 tk rest buf hord]
  show (if 0 < ((buf ++ tk.map maskChar).takeWhile (fun c => c != NUL)).length then
      PollOutcome.mk 1 (some (CmdLineProcess delimiter g_sCmdTable defaultFunc
        ((buf ++ tk.map maskChar).takeWhile (fun c => c != NUL)))) [] rest
    else PollOutcome.mk 1 none [] rest) = _
  rw [takeWhile_ne_nul (buf ++ tk.map maskChar) hnul]
  rw [if_pos (by
    simp only [List.length_append, List.length_map]
    have : 0 < tk.length := List.length_pos.mpr htkne
    omega)]

/-- Witness for C9 (amended): from the partial buffer `hi`, 77 ordinary
bytes fill the buffer; the poll dispatches the full 79-character line
(status `CMDLINE_BAD_CMD` here) and keeps the surplus byte unread. -/
theorem c9_full_buffer_dispatch_witness :
    DoCmdLine ' ' '\r' NUL [] none ("hi".toList)
        (List.replicate 77 97 ++ [13])
      = ⟨1, some CMDLINE_BAD_CMD, [], [13]⟩ := by
  have h := c9_full_buffer_dispatch ' ' '\r' NUL [] none ("hi".toList)
      (List.replicate 77 97) [13] (by decide) (by decide) (by decide) (by decide)
  exact h.trans (by decide)

/-- C10: with the default configuration — `SetDefaults` copies the string
`"\r"` into the terminator array, leaving slot 0 holding CR and slot 1
holding NUL — a received byte whose 7-bit-masked value is 0x00 compares
equal to the second terminator slot and completes the line: the buffered
content (non-empty here) is NUL-terminated and dispatched through
`CmdLineProcess`, exactly as when the configured CR terminator byte
arrives (second conjunct). -/
theorem c10_nul_second_terminator (delimiter : Char)
    (g_sCmdTable : List tCmdLineEntry) (defaultFunc : Option pfnCmdLine)
    (buf : List Char) (b : Nat) (rest : List Nat)
    (hb : b % 128 = 0) (hnul : NUL ∉ buf) (hne : buf ≠ [])
    (hlen : buf.length < CMD_BUF_SIZE - 1) :
    DoCmdLine delimiter defaultTerminators.1 defaultTerminators.2
        g_sCmdTable defaultFunc buf (b :: rest)
      = ⟨1, some (CmdLineProcess delimiter g_sCmdTable defaultFunc buf), [], rest⟩
    ∧ DoCmdLine delimiter defaultTerminators.1 defaultTerminators.2
        g_sCmdTable defaultFunc buf (b :: rest)
      = DoCmdLine delimiter defaultTerminators.1 defaultTerminators.2
          g_sCmdTable defaultFunc buf (13 :: rest) := by
  obtain ⟨k, hk⟩ : ∃ k, CMD_BUF_SIZE - 1 - buf.length = k + 1 := by
    refine ⟨CMD_BUF_SIZE - 2 - buf.length, ?_⟩
    unfold CMD_BUF_SIZE
    unfold CMD_BUF_SIZE at hlen
    omega
  have hmask : maskChar b = NUL := by
    unfold maskChar NUL
    rw [hb]
  have hpos : 0 < buf.length := List.length_pos.mpr hne
  have h1 : DoCmdLine delimiter defaultTerminators.1 defaultTerminators.2
      g_sCmdTable defaultFunc buf (b :: rest)
      = ⟨1, some (CmdLineProcess delimiter g_sCmdTable defaultFunc buf), [], rest⟩ := by
    unfold DoCmdLine
    simp only [List.isEmpty_cons, Bool.false_eq_true, if_false]
    rw [hk]
    simp only [scanChars, hmask]
    rw [if_pos (show NUL = defaultTerminators.1 ∨ NUL = defaultTerminators.2 from Or.inr rfl)]
    rw [if_pos (show NUL ≠ '\r' ∧ NUL ≠ '\n' by decide)]
    show (if 0 < ((buf ++ [NUL]).takeWhile (fun c => c != NUL)).length then
        PollOutcome.mk 1 (some (CmdLineProcess delimiter g_sCmdTable defaultFunc
          ((buf ++ [NUL]).takeWhile (fun c => c != NUL)))) [] rest
      else PollOutcome.mk 1 none [] rest) = _
    rw [takeWhile_append_nul buf hnul]
    rw [if_pos hpos]
  have hmask13 : maskChar 13 = '\r' := by decide
  have h2 : DoCmdLine delimiter defaultTerminators.1 defaultTerminators.2
      g_sCmdTable defaultFunc buf (13 :: rest)
      = ⟨1, some (CmdLineProcess delimiter g_sCmdTable defaultFunc buf), [], rest⟩ := by
    unfold DoCmdLine
    simp only [List.isEmpty_cons, Bool.false_eq_true, if_false]
    rw [hk]
    simp only [scanChars, hmask13]
    rw [if_pos (show ('\r' : Char) = defaultTerminators.1 ∨ ('\r' : Char) = defaultTerminators.2
      from Or.inl rfl)]
    rw [if_neg (show ¬(('\r' : Char) ≠ '\r' ∧ ('\r' : Char) ≠ '\n') by decide)]
    show (if 0 < (buf.takeWhile (fun c => c != NUL)).length then
        PollOutcome.mk 1 (some (CmdLineProcess delimiter g_sCmdTable defaultFunc
          (buf.takeWhile (fun c => c != NUL)))) [] rest
      else PollOutcome.mk 1 none [] rest) = _
    rw [takeWhile_ne_nul buf hnul]
    rw [if_pos hpos]
  exact ⟨h1, h1.trans h2.symm⟩

/-- Witness for C10: with the default terminators, the byte 0x00 after the
buffered characters `hi` completes and dispatches the line `hi` (status
`CMDLINE_BAD_CMD` from the empty table), exactly as the CR byte 13 does. -/
theorem c10_nul_second_terminator_witness :
    DoCmdLine ' ' defaultTerminators.1 defaultTerminators.2 [] none
        ("hi".toList) [0]
      = ⟨1, some CMDLINE_BAD_CMD, [], []⟩
    ∧ DoCmdLine ' ' defaultTerminators.1 defaultTerminators.2 [] none
        ("hi".toList) [0]
      = DoCmdLine ' ' defaultTerminators.1 defaultTerminators.2 [] none
          ("hi".toList) [13] := by
  have h := c10_nul_second_terminator ' ' [] none ("hi".toList) 0 []
      (by decide) (by decide) (by decide) (by decide)
  exact ⟨h.1.trans (by decide), h.2⟩
